import Mathlib

/-!
Verification of the posthoc-app protocol layer and query-layer controller
(src/protocol/index.ts and src/client/src/layers/query/index.tsx) against its
natural-language specification.  TypeScript values are embedded shallowly:
optional values become `Option`, JavaScript truthiness on strings becomes
`truthyS`, a promise that can reject becomes `Except Unit`, and the layer
controller's effect body becomes an explicit step function on the layer state.
-/

deriving instance DecidableEq for Except

namespace Posthoc

/-- An advertised capability, as returned by the `features/...` RPC calls:
`\x7b id, name, source \x7d` in the source; only `id` and `name` matter here. -/
structure Feature where
  id : String
  name : String
deriving DecidableEq

/-- A backend connection.  Its three fields record what the corresponding
`transport().call("features/...")` invocation returns: `Except.ok` a feature
list, or `Except.error ()` when the call fails (the promise rejects). -/
structure Connection where
  name : String
  url : String
  algorithms : Except Unit (List Feature)
  formats : Except Unit (List Feature)
  problemTypes : Except Unit (List Feature)
deriving DecidableEq

/-- lodash `find(features, \x7b id \x7d)` truthiness: some element of the list has
the requested id. -/
def hasId (features : List Feature) (i : String) : Bool :=
  (features.find? (fun f => f.id == i)).isSome

/-- The function findConnection from src/client/src/layers/query/index.tsx lines 50-64:
iterate the connections in order; for each, await the three feature queries
(a rejection propagates, there is no try/catch); return the first connection
whose three lists contain the requested algorithm, format and problem-type
ids; fall off the loop (undefined, here `Option.none`) when none matches. -/
def findConnection (connections : List Connection)
    (algorithm format problemType : String) : Except Unit (Option Connection) :=
  match connections with
  | [] => .ok none
  | connection :: rest =>
    match connection.algorithms with
    | .error e => .error e
    | .ok algorithms =>
      match connection.formats with
      | .error e => .error e
      | .ok formats =>
        match connection.problemTypes with
        | .error e => .error e
        | .ok problemTypes =>
          if hasId algorithms algorithm && hasId formats format
              && hasId problemTypes problemType then
            .ok (some connection)
          else
            findConnection rest algorithm format problemType

/-- All three feature calls of a connection succeed. -/
def connectionOk (c : Connection) : Bool :=
  c.algorithms.isOk && c.formats.isOk && c.problemTypes.isOk

/-- A connection's feature calls succeed and all three lists contain the
respective requested id (the loop's `if` condition in the source). -/
def connMatches (c : Connection) (algorithm format problemType : String) : Bool :=
  match c.algorithms, c.formats, c.problemTypes with
  | .ok as, .ok fs, .ok ps =>
      hasId as algorithm && hasId fs format && hasId ps problemType
  | _, _, _ => false

/-- The transport calls one loop iteration of `findConnection` issues for
connection `c`, in order: the iteration stops at the first rejected call
(the `await` throws), otherwise issues all three feature queries. -/
def featureQueryCalls (c : Connection) : List (String × String) :=
  match c.algorithms with
  | .error _ => [(c.name, "features/algorithms")]
  | .ok _ =>
    match c.formats with
    | .error _ => [(c.name, "features/algorithms"), (c.name, "features/formats")]
    | .ok _ =>
      match c.problemTypes with
      | .error _ =>
        [(c.name, "features/algorithms"), (c.name, "features/formats"),
         (c.name, "features/problemTypes")]
      | .ok _ =>
        [(c.name, "features/algorithms"), (c.name, "features/formats"),
         (c.name, "features/problemTypes")]

/-- Instrumentation of the same loop (src lines 56-63): the full sequence of
transport calls `findConnection` issues.  The loop continues past a
connection only when all its calls succeeded and it did not match. -/
def findConnectionCalls (connections : List Connection)
    (algorithm format problemType : String) : List (String × String) :=
  match connections with
  | [] => []
  | c :: rest =>
    featureQueryCalls c ++
      (if connectionOk c && !connMatches c algorithm format problemType then
        findConnectionCalls rest algorithm format problemType
      else [])

theorem connectionOk_iff (c : Connection) :
    connectionOk c = true ↔
      (∃ as, c.algorithms = .ok as) ∧ (∃ fs, c.formats = .ok fs) ∧
      (∃ ps, c.problemTypes = .ok ps) := by
  unfold connectionOk
  cases h₁ : c.algorithms <;> cases h₂ : c.formats <;> cases h₃ : c.problemTypes <;>
    simp [Except.isOk, Except.toBool]

theorem findConnection_all_ok (cs : List Connection) (a f p : String)
    (hok : ∀ c ∈ cs, connectionOk c = true) :
    findConnection cs a f p = .ok (cs.find? (fun c => connMatches c a f p)) := by
  induction cs with
  | nil => rfl
  | cons c rest ih =>
    have hc := hok c (List.mem_cons_self c rest)
    obtain ⟨⟨as, ha⟩, ⟨fs, hf⟩, ⟨ps, hp⟩⟩ := (connectionOk_iff c).mp hc
    have hrest : ∀ d ∈ rest, connectionOk d = true := fun d hd =>
      hok d (List.mem_cons_of_mem _ hd)
    rw [findConnection, ha, hf, hp]
    by_cases hm : (hasId as a && hasId fs f && hasId ps p) = true
    · simp [hm, List.find?, connMatches, ha, hf, hp]
    · rw [Bool.not_eq_true] at hm
      simp only [hm, Bool.false_eq_true, if_false, List.find?, connMatches,
        ha, hf, hp]
      exact ih hrest

theorem findConnection_cons_skip (d : Connection) (t : List Connection)
    (a f p : String) (hok : connectionOk d = true)
    (hm : connMatches d a f p = false) :
    findConnection (d :: t) a f p = findConnection t a f p := by
  obtain ⟨⟨as, ha⟩, ⟨fs, hf⟩, ⟨ps, hp⟩⟩ := (connectionOk_iff d).mp hok
  rw [findConnection, ha, hf, hp]
  have hcond : (hasId as a && hasId fs f && hasId ps p) = false := by
    simpa [connMatches, ha, hf, hp] using hm
  simp [hcond]

theorem findConnection_cons_error (d : Connection) (t : List Connection)
    (a f p : String) (hbad : connectionOk d = false) :
    findConnection (d :: t) a f p = .error () := by
  rw [findConnection]
  cases ha : d.algorithms with
  | error e => cases e; rfl
  | ok as =>
    cases hf : d.formats with
    | error e => cases e; rfl
    | ok fs =>
      cases hp : d.problemTypes with
      | error e => cases e; rfl
      | ok ps =>
        exfalso
        rw [connectionOk, ha, hf, hp] at hbad
        simp [Except.isOk, Except.toBool] at hbad

theorem findConnectionCalls_stop (cs₁ cs₂ : List Connection) (c : Connection)
    (a f p : String)
    (h₁ : ∀ d ∈ cs₁, connectionOk d = true ∧ connMatches d a f p = false)
    (hc : connectionOk c = false ∨ connMatches c a f p = true) :
    findConnectionCalls (cs₁ ++ c :: cs₂) a f p
      = findConnectionCalls (cs₁ ++ [c]) a f p := by
  induction cs₁ with
  | nil =>
    simp only [List.nil_append, findConnectionCalls]
    rcases hc with hc | hc
    · simp [hc]
    · simp [hc]
  | cons d rest ih =>
    have hd := h₁ d (List.mem_cons_self d rest)
    have hrest : ∀ e ∈ rest, connectionOk e = true ∧ connMatches e a f p = false :=
      fun e he => h₁ e (List.mem_cons_of_mem _ he)
    simp only [List.cons_append, findConnectionCalls, hd.1, hd.2,
      Bool.not_false, Bool.and_true, if_true, List.append_eq]
    rw [ih hrest]

/-- C2: federated search returns the first connection, in the supplied order,
whose advertised algorithms, formats and problemTypes lists each contain the
respective requested id (`List.find?` on the loop condition); when no
connection matches it yields `.ok none` (absence, not an error); and once a
connection matches, the connections after it contribute no transport calls. -/
theorem C2_findConnection_first_match (cs cs₁ cs₂ : List Connection)
    (c : Connection) (a f p : String)
    (hok : ∀ d ∈ cs, connectionOk d = true)
    (h₁ : ∀ d ∈ cs₁, connectionOk d = true ∧ connMatches d a f p = false)
    (hc : connMatches c a f p = true) :
    findConnection cs a f p = .ok (cs.find? (fun d => connMatches d a f p)) ∧
    findConnectionCalls (cs₁ ++ c :: cs₂) a f p
      = findConnectionCalls (cs₁ ++ [c]) a f p :=
  ⟨findConnection_all_ok cs a f p hok,
   findConnectionCalls_stop cs₁ cs₂ c a f p h₁ (Or.inr hc)⟩

/-- Connection advertising dijkstra and grid but no problem types
(the example of spec section 8). -/
def connA : Connection :=
  ⟨"A", "http://a", .ok [⟨"dijkstra", "Dijkstra"⟩], .ok [⟨"grid", "Grid"⟩], .ok []⟩

/-- Connection advertising dijkstra, grid and pathfinding. -/
def connB : Connection :=
  ⟨"B", "http://b", .ok [⟨"dijkstra", "Dijkstra"⟩], .ok [⟨"grid", "Grid"⟩],
   .ok [⟨"pathfinding", "Pathfinding"⟩]⟩

/-- Connection whose features/algorithms call fails. -/
def connBroken : Connection := ⟨"broken", "http://x", .error (), .ok [], .ok []⟩

/-- Witness for C2 on the spec's own example: requesting (dijkstra, grid,
pathfinding) over [A, B] selects B, never A, and stops there. -/
theorem C2_witness :
    ((∀ d ∈ [connA, connB], connectionOk d = true) ∧
      (∀ d ∈ [connA], connectionOk d = true ∧
        connMatches d "dijkstra" "grid" "pathfinding" = false) ∧
      connMatches connB "dijkstra" "grid" "pathfinding" = true) ∧
    (findConnection [connA, connB] "dijkstra" "grid" "pathfinding"
        = .ok ([connA, connB].find?
            (fun d => connMatches d "dijkstra" "grid" "pathfinding")) ∧
      findConnectionCalls ([connA] ++ connB :: []) "dijkstra" "grid" "pathfinding"
        = findConnectionCalls ([connA] ++ [connB]) "dijkstra" "grid" "pathfinding") :=
  ⟨⟨by decide, by decide, by decide⟩,
   C2_findConnection_first_match [connA, connB] [connA] [] connB
     "dijkstra" "grid" "pathfinding" (by decide) (by decide) (by decide)⟩

/-- C4 counterexample: the first connection's features/algorithms call fails
and the second connection matches the request, yet findConnection does not
skip the failing connection: the error propagates (the loop has no try/catch)
and the matching second connection is never queried, contradicting the claim
that the search proceeds to the remaining connections. -/
theorem C4_counterexample :
    findConnection [connBroken, connB] "dijkstra" "grid" "pathfinding"
        = .error () ∧
    findConnectionCalls [connBroken, connB] "dijkstra" "grid" "pathfinding"
        = [("broken", "features/algorithms")] := by
  exact ⟨rfl, rfl⟩

/-- C4 amended: during federated search a failing feature query is not
caught: as soon as a connection's feature call fails, the whole search fails
with that error and the remaining connections are not queried. -/
theorem C4_amended_failure_propagates (cs₁ cs₂ : List Connection)
    (c : Connection) (a f p : String)
    (h₁ : ∀ d ∈ cs₁, connectionOk d = true ∧ connMatches d a f p = false)
    (hc : connectionOk c = false) :
    findConnection (cs₁ ++ c :: cs₂) a f p = .error () ∧
    findConnectionCalls (cs₁ ++ c :: cs₂) a f p
      = findConnectionCalls (cs₁ ++ [c]) a f p := by
  refine ⟨?_, findConnectionCalls_stop cs₁ cs₂ c a f p h₁ (Or.inl hc)⟩
  induction cs₁ with
  | nil => exact findConnection_cons_error c cs₂ a f p hc
  | cons d rest ih =>
    have hd := h₁ d (List.mem_cons_self d rest)
    have hrest : ∀ e ∈ rest, connectionOk e = true ∧ connMatches e a f p = false :=
      fun e he => h₁ e (List.mem_cons_of_mem _ he)
    rw [List.cons_append, findConnection_cons_skip d _ a f p hd.1 hd.2]
    exact ih hrest

/-- Witness for the amended C4 at a concrete input. -/
theorem C4_amended_witness :
    ((∀ d ∈ [connA], connectionOk d = true ∧
        connMatches d "dijkstra" "grid" "pathfinding" = false) ∧
      connectionOk connBroken = false) ∧
    (findConnection ([connA] ++ connBroken :: [connB]) "dijkstra" "grid" "pathfinding"
        = .error () ∧
      findConnectionCalls ([connA] ++ connBroken :: [connB]) "dijkstra" "grid" "pathfinding"
        = findConnectionCalls ([connA] ++ [connBroken]) "dijkstra" "grid" "pathfinding") :=
  ⟨⟨by decide, by decide⟩,
   C4_amended_failure_propagates [connA] [connB] connBroken
     "dijkstra" "grid" "pathfinding" (by decide) (by decide)⟩

/-- The trace object written by the service effect:
`\x7b name, content, key: id(), id: id() \x7d`. -/
structure TraceData where
  name : String
  content : String
  key : String
  id : String
deriving DecidableEq

/-- One task instance of the solve request (the element of `instances`). -/
structure SolveInstance where
  start : Nat
  «end» : Nat
  plants : List Nat
  taps : List Nat
  pourAmounts : List Nat
deriving DecidableEq

/-- The `solve/pathfinding` request arguments. -/
structure SolveArgs where
  format : String
  instances : List SolveInstance
  mapURI : String
  algorithm : String
deriving DecidableEq

/-- The query layer's source state (`QueryLayerData`).  Every field the code
reads through `value?.source ?? \x7b\x7d` or optional chaining is an `Option`;
the trailing fields (trace, onion, step, code, breakpoints) come from
`TraceLayerData` (layers/trace, not under src; modelled from the spec's Trace
Model section and from the keys `controller.compress` picks). -/
structure QueryLayerData where
  mapLayerKey : Option String := none
  query : Option SolveArgs := none
  start : Option Nat := none
  «end» : Option Nat := none
  plants : Option (List Nat) := none
  pourAmounts : Option (List Nat) := none
  taps : Option (List Nat) := none
  algorithm : Option String := none
  problemType : Option String := none
  trace : Option TraceData := none
  onion : Option String := none
  step : Option Nat := none
  code : Option String := none
  breakpoints : Option (List Nat) := none
deriving DecidableEq

/-- The compressed (persisted) form of a query layer: exactly the keys
`controller.compress` picks (src lines 100-111). -/
structure CompressedQueryLayer where
  mapLayerKey : Option String
  query : Option SolveArgs
  start : Option Nat
  «end» : Option Nat
  algorithm : Option String
  onion : Option String
  step : Option Nat
  code : Option String
  breakpoints : Option (List Nat)
deriving DecidableEq

/-- The compress operation of the controller: `pick(layer, ["mapLayerKey", "query", "start",
"end", "algorithm", "onion", "step", "code", "breakpoints"])`. -/
def compress (layer : QueryLayerData) : CompressedQueryLayer :=
  { mapLayerKey := layer.mapLayerKey
    query := layer.query
    start := layer.start
    «end» := layer.«end»
    algorithm := layer.algorithm
    onion := layer.onion
    step := layer.step
    code := layer.code
    breakpoints := layer.breakpoints }

/-- The `Clear` selection action (src lines 449-467): resets start, end,
plants, taps, query and trace, and points mapLayerKey at the clicked layer. -/
def clearAction (l : QueryLayerData) (nextKey : Option String) : QueryLayerData :=
  { l with
      start := none
      «end» := none
      plants := some []
      taps := some []
      query := none
      mapLayerKey := nextKey
      trace := none }

/-- The `Set as plant` selection action (src lines 415-429): appends the
clicked node to `source.plants` and invalidates query, trace and
mapLayerKey; it does not touch `source.pourAmounts`. -/
def setAsPlantAction (l : QueryLayerData) (node : Nat) (nextKey : Option String) :
    QueryLayerData :=
  { l with
      plants := some (l.plants.getD [] ++ [node])
      query := none
      mapLayerKey := nextKey
      trace := none }

/-- C5: the Clear action resets start and end to absent, plants and taps to
empty lists, and both query and trace to absent, whatever was set before. -/
theorem C5_clear_resets (l : QueryLayerData) (nextKey : Option String) :
    (clearAction l nextKey).start = none ∧
    (clearAction l nextKey).«end» = none ∧
    (clearAction l nextKey).plants = some [] ∧
    (clearAction l nextKey).taps = some [] ∧
    (clearAction l nextKey).query = none ∧
    (clearAction l nextKey).trace = none :=
  ⟨rfl, rfl, rfl, rfl, rfl, rfl⟩

/-- C3 counterexample: starting from a state where `plants` and `pourAmounts`
are both empty (lengths equal), the `Set as plant` action appends a node to
`plants` but appends nothing to `pourAmounts`, so the claimed invariant
`pourAmounts.length == plants.length` is broken and no zero entry is added. -/
theorem C3_counterexample :
    (setAsPlantAction { plants := some [], pourAmounts := some [] } 7 none).plants
        = some [7] ∧
    (setAsPlantAction { plants := some [], pourAmounts := some [] } 7 none).pourAmounts
        = some [] ∧
    ¬ (((setAsPlantAction { plants := some [], pourAmounts := some [] } 7 none).pourAmounts.getD []).length
        = ((setAsPlantAction { plants := some [], pourAmounts := some [] } 7 none).plants.getD []).length) := by
  refine ⟨rfl, rfl, ?_⟩
  decide

/-- C3 amended: the `Set as plant` action appends the node to `source.plants`
(growing it by one) and leaves `source.pourAmounts` unchanged, so the
invariant `pourAmounts.length == plants.length` is not preserved by plant
adds; absent amounts are instead read back as zero / empty elsewhere. -/
theorem C3_amended_plant_append (l : QueryLayerData) (node : Nat)
    (nextKey : Option String) :
    (setAsPlantAction l node nextKey).plants = some (l.plants.getD [] ++ [node]) ∧
    ((setAsPlantAction l node nextKey).plants.getD []).length
        = (l.plants.getD []).length + 1 ∧
    (setAsPlantAction l node nextKey).pourAmounts = l.pourAmounts := by
  refine ⟨rfl, ?_, rfl⟩
  simp [setAsPlantAction]

/-- C10: the compressed form holds exactly the picked fields (each equal to
the layer's value), and is invariant under the dropped fields: plants, taps,
pourAmounts, problemType and trace never reach the persisted form. -/
theorem C10_compress_picks (l : QueryLayerData) (ps pa ts : Option (List Nat))
    (pt : Option String) (tr : Option TraceData) :
    (compress l).mapLayerKey = l.mapLayerKey ∧
    (compress l).query = l.query ∧
    (compress l).start = l.start ∧
    (compress l).«end» = l.«end» ∧
    (compress l).algorithm = l.algorithm ∧
    (compress l).onion = l.onion ∧
    (compress l).step = l.step ∧
    (compress l).code = l.code ∧
    (compress l).breakpoints = l.breakpoints ∧
    compress { l with plants := ps, taps := ts, pourAmounts := pa,
                      problemType := pt, trace := tr } = compress l :=
  ⟨rfl, rfl, rfl, rfl, rfl, rfl, rfl, rfl, rfl, rfl⟩

/-- Upper-case hexadecimal digit, `n < 16`. -/
def hexDigitChar (n : Nat) : Char :=
  if n < 10 then Char.ofNat (48 + n) else Char.ofNat (55 + n)

/-- Percent-escape of one byte as three characters (37 is the percent sign). -/
def percentEncodeByte (b : Nat) : List Char :=
  [Char.ofNat 37, hexDigitChar (b / 16), hexDigitChar (b % 16)]

/-- UTF-8 byte sequence of a code point. -/
def utf8Bytes (n : Nat) : List Nat :=
  if n < 128 then [n]
  else if n < 2048 then [192 + n / 64, 128 + n % 64]
  else if n < 65536 then [224 + n / 4096, 128 + n / 64 % 64, 128 + n % 64]
  else [240 + n / 262144, 128 + n / 4096 % 64, 128 + n / 64 % 64, 128 + n % 64]

/-- The characters `encodeURIComponent` leaves as-is: ASCII letters, digits,
and `- _ . ! ~ *` the quote and parentheses (by character code). -/
def isUnreservedInURIComponent (c : Char) : Bool :=
  (65 ≤ c.toNat && c.toNat ≤ 90) || (97 ≤ c.toNat && c.toNat ≤ 122) ||
  (48 ≤ c.toNat && c.toNat ≤ 57) ||
  [45, 95, 46, 33, 126, 42, 39, 40, 41].contains c.toNat

/-- Modelled from the spec: the ECMAScript builtin `encodeURIComponent` used
at src line 293 is platform code, not part of this repository.  Per the
spec's "percent-encoded map data": unreserved characters are copied,
everything else becomes the `%XX` escapes of its UTF-8 bytes. -/
def encodeURIComponent (s : String) : String :=
  String.mk (s.data.flatMap fun c =>
    if isUnreservedInURIComponent c then [c]
    else (utf8Bytes c.toNat).flatMap percentEncodeByte)

/-- The `args` object built by the service effect (src lines 282-295):
defaults `start ?? 0`, `end ?? 0`, `plants ?? []`, `taps ?? []`,
`pourAmounts ?? []`, and the inline-content map URI. -/
def buildSolveArgs (st : QueryLayerData) (format content : String) : SolveArgs :=
  { format := format
    instances := [{ start := st.start.getD 0
                    «end» := st.«end».getD 0
                    plants := st.plants.getD []
                    taps := st.taps.getD []
                    pourAmounts := st.pourAmounts.getD [] }]
    mapURI := "map:" ++ encodeURIComponent content
    algorithm := st.algorithm.getD "" }

/-- C8: the solve arguments carry `mapURI = "map:" ++
encodeURIComponent content` (a self-contained inline-content URI), and
absent inputs default as specified: a state with all of start, end, plants,
taps and pourAmounts absent builds the same request as one where they are
0, 0, [], [], []. -/
theorem C8_solveArgs_mapURI_defaults (st : QueryLayerData) (format content : String) :
    (buildSolveArgs st format content).mapURI
        = "map:" ++ encodeURIComponent content ∧
    buildSolveArgs { st with start := none, «end» := none, plants := none,
                             taps := none, pourAmounts := none } format content
      = buildSolveArgs { st with start := some 0, «end» := some 0,
                                 plants := some [], taps := some [],
                                 pourAmounts := some [] } format content :=
  ⟨rfl, rfl⟩

/-- JavaScript truthiness of an optional string: present and non-empty. -/
def truthyS : Option String → Bool
  | none => false
  | some s => !(s == "")

/-- The map of a map layer (`mapLayer?.source?.map`), with its format. -/
structure MapSpec where
  format : Option String
deriving DecidableEq

/-- A map layer as the service sees it: its key and its `source.map`. -/
structure MapLayerS where
  key : String
  map : Option MapSpec
deriving DecidableEq

/-- The result of `useMapContent`: an object whose `content` holds the
resolved map text. -/
structure MapContentS where
  content : Option String
deriving DecidableEq

/-- The service's `mapLayer` memo (src lines 257-263): only looked up when
both `mapLayerKey` and `algorithm` are truthy; lodash
`find(layers, \x7b key: mapLayerKey \x7d)`. -/
def serviceMapLayer (layers : List MapLayerS)
    (mapLayerKey algorithm : Option String) : Option MapLayerS :=
  if truthyS mapLayerKey && truthyS algorithm then
    layers.find? (fun l => some l.key == mapLayerKey)
  else none

/-- The environment one run of the service effect executes in: the reactive
slices it reads (layers, connections, features), the resolved map content,
what the `solve/pathfinding` call returns (`Except.error` when the promise
rejects), the two `nanoid()` draws, and whether the run's cancellation
signal is aborted by the time the solve response arrives.  The signal
life-cycle itself lives in `useEffectWhenAsync` (hooks/useEffectWhen, not
under src); modelled from the spec, which has stale effects abort their
signal when any governing input changes or on explicit cancellation. -/
structure ServiceEnv where
  layers : List MapLayerS
  connections : List Connection
  algorithms : List Feature
  mapContent : Option MapContentS
  solveResult : Except Unit String
  freshKey : String
  freshId : String
  abortedAtResponse : Bool

/-- What one run of the service effect produced: the resulting layer state,
the snackbar notices in order, and the transport calls issued. -/
structure ServiceOutcome where
  state : QueryLayerData
  notices : List String
  calls : List (String × String)
deriving DecidableEq

/-- One run of the service effect (src lines 265-315), as a function of the
current layer state: guard on mapLayer/mapContent/algorithm/problemType,
then on format/content, federated search, then the solve call, and finally
the abort check deciding whether `source.trace` and `source.query` are
written or a "Canceled" notice is shown.  An uncaught rejection of any
transport call is the `Except.error` result. -/
def serviceStep (env : ServiceEnv) (st : QueryLayerData) :
    Except Unit ServiceOutcome :=
  let mapLayer := serviceMapLayer env.layers st.mapLayerKey st.algorithm
  if mapLayer.isSome && env.mapContent.isSome
      && truthyS st.algorithm && truthyS st.problemType then
    let format := (mapLayer.bind MapLayerS.map).bind MapSpec.format
    let content := env.mapContent.bind MapContentS.content
    if truthyS format && truthyS content then
      let a := st.algorithm.getD ""
      let f := format.getD ""
      let p := st.problemType.getD ""
      let featureCalls := findConnectionCalls env.connections a f p
      match findConnection env.connections a f p with
      | .error e => .error e
      | .ok none => .ok ⟨st, [], featureCalls⟩
      | .ok (some connection) =>
        let algorithmInfo := env.algorithms.find? (fun x => x.id == a)
        let executing := "Executing using " ++ connection.name
        let args := buildSolveArgs st f (content.getD "")
        let calls := featureCalls ++ [(connection.name, "solve/pathfinding")]
        match env.solveResult with
        | .error e => .error e
        | .ok result =>
          if !env.abortedAtResponse then
            .ok ⟨{ st with
                    trace := some { name := (algorithmInfo.map Feature.name).getD "undefined"
                                    content := result
                                    key := env.freshKey
                                    id := env.freshId }
                    query := some args },
                 [executing], calls⟩
          else
            .ok ⟨st, [executing, "Canceled"], calls⟩
    else .ok ⟨st, [], []⟩
  else .ok ⟨st, [], []⟩

theorem featureQueryCalls_no_solve (c : Connection) (cname : String) :
    (cname, "solve/pathfinding") ∉ featureQueryCalls c := by
  intro hx
  unfold featureQueryCalls at hx
  rcases h₁ : c.algorithms with e | as <;> rw [h₁] at hx
  · simp at hx
  · rcases h₂ : c.formats with e | fs <;> rw [h₂] at hx
    · simp at hx
    · rcases h₃ : c.problemTypes with e | ps <;> rw [h₃] at hx <;> simp at hx

theorem findConnectionCalls_no_solve (cs : List Connection) (a f p : String)
    (cname : String) :
    (cname, "solve/pathfinding") ∉ findConnectionCalls cs a f p := by
  induction cs with
  | nil => simp [findConnectionCalls]
  | cons c rest ih =>
    intro hmem
    rw [findConnectionCalls] at hmem
    rcases List.mem_append.mp hmem with hmem | hmem
    · exact featureQueryCalls_no_solve c cname hmem
    · split at hmem
      · exact ih hmem
      · simp at hmem

/-- C7: when the algorithm or the problem type is not set, or the map layer
cannot be resolved, or the map content (or its format, or the content text)
is absent, one run of the service performs no action: no feature query and
no solve call is issued and the layer state — in particular `source.trace`
and `source.query` — is returned unchanged. -/
theorem C7_idle_no_action (env : ServiceEnv) (st : QueryLayerData)
    (h : truthyS st.algorithm = false ∨ truthyS st.problemType = false ∨
      serviceMapLayer env.layers st.mapLayerKey st.algorithm = none ∨
      env.mapContent = none ∨
      truthyS (((serviceMapLayer env.layers st.mapLayerKey st.algorithm).bind
          MapLayerS.map).bind MapSpec.format) = false ∨
      truthyS (env.mapContent.bind MapContentS.content) = false) :
    serviceStep env st = .ok ⟨st, [], []⟩ := by
  rcases h with h | h | h | h | h | h <;> simp [serviceStep, h]

/-- An environment with nothing configured, for the C7 witness. -/
def envIdle : ServiceEnv :=
  { layers := []
    connections := []
    algorithms := []
    mapContent := none
    solveResult := .ok ""
    freshKey := "k"
    freshId := "i"
    abortedAtResponse := false }

/-- Witness for C7: with no algorithm selected the service does nothing. -/
theorem C7_witness :
    (truthyS ({} : QueryLayerData).algorithm = false ∨
      truthyS ({} : QueryLayerData).problemType = false ∨
      serviceMapLayer envIdle.layers ({} : QueryLayerData).mapLayerKey
        ({} : QueryLayerData).algorithm = none ∨
      envIdle.mapContent = none ∨
      truthyS (((serviceMapLayer envIdle.layers ({} : QueryLayerData).mapLayerKey
          ({} : QueryLayerData).algorithm).bind MapLayerS.map).bind
          MapSpec.format) = false ∨
      truthyS (envIdle.mapContent.bind MapContentS.content) = false) ∧
    serviceStep envIdle {} = .ok ⟨{}, [], []⟩ :=
  ⟨Or.inl rfl, C7_idle_no_action envIdle {} (Or.inl rfl)⟩

/-- C1: for any run of the service effect that finishes without an uncaught
rejection, if the run's cancellation signal is aborted by the time the
`solve/pathfinding` response arrives, the response is never applied:
`source.trace` and `source.query` are unchanged and, whenever a solve call
was issued, a "Canceled" notice is emitted; conversely `source.trace` or
`source.query` change only when the signal is not aborted. -/
theorem C1_canceled_never_applied (env : ServiceEnv) (st : QueryLayerData)
    (out : ServiceOutcome) (h : serviceStep env st = .ok out) :
    (env.abortedAtResponse = true →
        out.state.trace = st.trace ∧ out.state.query = st.query ∧
        (∀ cname, (cname, "solve/pathfinding") ∈ out.calls →
          "Canceled" ∈ out.notices)) ∧
    ((out.state.trace ≠ st.trace ∨ out.state.query ≠ st.query) →
        env.abortedAtResponse = false) := by
  simp only [serviceStep] at h
  split at h
  · split at h
    · split at h
      · exact absurd h (by simp)
      · injection h with h
        subst h
        refine ⟨fun _ => ⟨rfl, rfl, fun cname hmem => ?_⟩, fun hne => ?_⟩
        · exact absurd hmem (findConnectionCalls_no_solve _ _ _ _ cname)
        · rcases hne with hne | hne <;> exact absurd rfl hne
      · split at h
        · exact absurd h (by simp)
        · split at h
          · next habort =>
            injection h with h
            subst h
            rw [Bool.not_eq_eq_eq_not, Bool.not_true] at habort
            refine ⟨fun ha => ?_, fun _ => habort⟩
            · rw [habort] at ha
              exact absurd ha (by simp)
          · next habort =>
            injection h with h
            subst h
            refine ⟨fun _ => ⟨rfl, rfl, fun cname hmem => ?_⟩, fun hne => ?_⟩
            · simp
            · rcases hne with hne | hne <;> exact absurd rfl hne
    · injection h with h
      subst h
      refine ⟨fun _ => ⟨rfl, rfl, fun cname hmem => ?_⟩, fun hne => ?_⟩
      · exact absurd hmem (by simp)
      · rcases hne with hne | hne <;> exact absurd rfl hne
  · injection h with h
    subst h
    refine ⟨fun _ => ⟨rfl, rfl, fun cname hmem => ?_⟩, fun hne => ?_⟩
    · exact absurd hmem (by simp)
    · rcases hne with hne | hne <;> exact absurd rfl hne

/-- Layer state with complete inputs, for the C1 witness. -/
def stRun : QueryLayerData :=
  { mapLayerKey := some "k"
    algorithm := some "dijkstra"
    problemType := some "pathfinding"
    start := some 1
    «end» := some 2 }

/-- A fully configured environment whose signal is aborted by the time the
solve response arrives, for the C1 witness. -/
def envRun : ServiceEnv :=
  { layers := [⟨"k", some ⟨some "grid"⟩⟩]
    connections := [connB]
    algorithms := [⟨"dijkstra", "Dijkstra"⟩]
    mapContent := some ⟨some "MAP"⟩
    solveResult := .ok "RESULT"
    freshKey := "fk"
    freshId := "fi"
    abortedAtResponse := true }

/-- The outcome of `serviceStep envRun stRun`: the solve call was issued,
the state is untouched and a "Canceled" notice was shown. -/
def outRun : ServiceOutcome :=
  ⟨stRun, ["Executing using B", "Canceled"],
   [("B", "features/algorithms"), ("B", "features/formats"),
    ("B", "features/problemTypes"), ("B", "solve/pathfinding")]⟩

/-- Witness for C1: a concrete aborted run whose solve response is discarded. -/
theorem C1_witness :
    serviceStep envRun stRun = .ok outRun ∧
    ((envRun.abortedAtResponse = true →
        outRun.state.trace = stRun.trace ∧ outRun.state.query = stRun.query ∧
        (∀ cname, (cname, "solve/pathfinding") ∈ outRun.calls →
          "Canceled" ∈ outRun.notices)) ∧
      ((outRun.state.trace ≠ stRun.trace ∨ outRun.state.query ≠ stRun.query) →
        envRun.abortedAtResponse = false)) :=
  ⟨by decide, C1_canceled_never_applied envRun stRun outRun (by decide)⟩

/-- One entry of the method registry: a method name and its request and
response shapes (shape descriptors). -/
structure MethodSig where
  name : String
  request : String
  response : String
deriving DecidableEq

/-- Modelled from the spec: the method definition modules behind
`NameMethodMap` (src/protocol/CheckConnection.ts, FeatureQuery.ts,
SolveTask.ts) are not under src — only the intersection type
`NameMethodMap` (src/protocol/index.ts lines 18-29) is.  The ten entries
and their shapes follow the RPC table of spec section 6. -/
def nameMethodMap : List MethodSig := [
  ⟨"checkConnection", "none", "liveness/identity info"⟩,
  ⟨"features/algorithms", "none", "list of features"⟩,
  ⟨"features/formats", "none", "list of features"⟩,
  ⟨"features/problemTypes", "none", "list of features"⟩,
  ⟨"features/maps", "none/filter", "list of map descriptors"⟩,
  ⟨"features/map", "map id", "single map descriptor"⟩,
  ⟨"features/trace", "trace id", "single trace descriptor"⟩,
  ⟨"features/traces", "none", "list of trace descriptors"⟩,
  ⟨"features/changed", "none", "change notification payload"⟩,
  ⟨"solve/pathfinding", "solve args", "trace content"⟩]

/-- C6: the method names of the registry are pairwise distinct, so the
registry is a function from name to a single (request, response) pair: two
entries sharing a name are the same entry. -/
theorem C6_registry_names_unique :
    (nameMethodMap.map MethodSig.name).Nodup ∧
    ∀ m₁ ∈ nameMethodMap, ∀ m₂ ∈ nameMethodMap, m₁.name = m₂.name → m₁ = m₂ := by
  decide

/-- Witness for C6 at a concrete pair of entries: both quantified entries
instantiated with the checkConnection entry. -/
theorem C6_registry_witness :
    (⟨"checkConnection", "none", "liveness/identity info"⟩ : MethodSig)
      = ⟨"checkConnection", "none", "liveness/identity info"⟩ :=
  C6_registry_names_unique.2
    ⟨"checkConnection", "none", "liveness/identity info"⟩ (by decide)
    ⟨"checkConnection", "none", "liveness/identity info"⟩ (by decide) rfl

/-- A JavaScript value as `mapValuesDeep` sees it: an array, a plain object
(ordered key-value pairs), or a scalar leaf (anything that is neither an
array nor an object). -/
inductive JValue (α : Type) where
  | scalar : α → JValue α
  | arr : List (JValue α) → JValue α
  | obj : List (String × JValue α) → JValue α

/-- The function mapValuesDeep (src lines 44-49): `map` over an array, lodash
`mapValues` over an object (keys kept, values mapped recursively), the
callback applied at every other value.  (`attach` only carries the
membership proof for termination; the unfolding lemmas below restate the
three clauses in their plain form.) -/
def mapValuesDeep (callback : α → β) : JValue α → JValue β
  | .arr vs => .arr (vs.attach.map fun x => mapValuesDeep callback x.1)
  | .obj kvs => .obj (kvs.attach.map fun kv => (kv.1.1, mapValuesDeep callback kv.1.2))
  | .scalar v => .scalar (callback v)
termination_by v => sizeOf v
decreasing_by
  · have h := List.sizeOf_lt_of_mem x.2
    simp only [JValue.arr.sizeOf_spec]
    omega
  · have h := List.sizeOf_lt_of_mem kv.2
    have h2 : sizeOf kv.1.2 < sizeOf kv.1 := by
      obtain ⟨⟨k, v2⟩, hk⟩ := kv
      simp_arith
    simp only [JValue.obj.sizeOf_spec]
    omega

theorem mapValuesDeep_scalar (callback : α → β) (a : α) :
    mapValuesDeep callback (.scalar a) = .scalar (callback a) := by
  rw [mapValuesDeep]

theorem mapValuesDeep_arr (callback : α → β) (vs : List (JValue α)) :
    mapValuesDeep callback (.arr vs)
      = .arr (vs.map fun v => mapValuesDeep callback v) := by
  rw [mapValuesDeep]
  congr 1
  exact List.attach_map_coe vs (fun v => mapValuesDeep callback v)

theorem mapValuesDeep_obj (callback : α → β) (kvs : List (String × JValue α)) :
    mapValuesDeep callback (.obj kvs)
      = .obj (kvs.map fun kv => (kv.1, mapValuesDeep callback kv.2)) := by
  rw [mapValuesDeep]
  congr 1
  exact List.attach_map_coe kvs (fun kv => (kv.1, mapValuesDeep callback kv.2))

/-- The structural skeleton of a value: leaves erased, array order and
object keys kept. -/
def jshape {α : Type} : JValue α → JValue Unit
  | .scalar _ => .scalar ()
  | .arr vs => .arr (vs.attach.map fun x => jshape x.1)
  | .obj kvs => .obj (kvs.attach.map fun kv => (kv.1.1, jshape kv.1.2))
termination_by v => sizeOf v
decreasing_by
  · have h := List.sizeOf_lt_of_mem x.2
    simp only [JValue.arr.sizeOf_spec]
    omega
  · have h := List.sizeOf_lt_of_mem kv.2
    have h2 : sizeOf kv.1.2 < sizeOf kv.1 := by
      obtain ⟨⟨k, v2⟩, hk⟩ := kv
      simp_arith
    simp only [JValue.obj.sizeOf_spec]
    omega

theorem jshape_scalar {α : Type} (a : α) :
    jshape (.scalar a) = .scalar () := by
  rw [jshape]

theorem jshape_arr {α : Type} (vs : List (JValue α)) :
    jshape (.arr vs) = .arr (vs.map fun v => jshape v) := by
  rw [jshape]
  congr 1
  exact List.attach_map_coe vs (fun v => jshape v)

theorem jshape_obj {α : Type} (kvs : List (String × JValue α)) :
    jshape (.obj kvs) = .obj (kvs.map fun kv => (kv.1, jshape kv.2)) := by
  rw [jshape]
  congr 1
  exact List.attach_map_coe kvs (fun kv => (kv.1, jshape kv.2))

/-- The scalar leaves of a value, left to right. -/
def leaves {α : Type} : JValue α → List α
  | .scalar a => [a]
  | .arr vs => (vs.attach.map fun x => leaves x.1).flatten
  | .obj kvs => (kvs.attach.map fun kv => leaves kv.1.2).flatten
termination_by v => sizeOf v
decreasing_by
  · have h := List.sizeOf_lt_of_mem x.2
    simp only [JValue.arr.sizeOf_spec]
    omega
  · have h := List.sizeOf_lt_of_mem kv.2
    have h2 : sizeOf kv.1.2 < sizeOf kv.1 := by
      obtain ⟨⟨k, v2⟩, hk⟩ := kv
      simp_arith
    simp only [JValue.obj.sizeOf_spec]
    omega

theorem leaves_scalar {α : Type} (a : α) : leaves (.scalar a) = [a] := by
  rw [leaves]

theorem leaves_arr {α : Type} (vs : List (JValue α)) :
    leaves (.arr vs) = (vs.map fun v => leaves v).flatten := by
  rw [leaves]
  congr 1
  exact List.attach_map_coe vs (fun v => leaves v)

theorem leaves_obj {α : Type} (kvs : List (String × JValue α)) :
    leaves (.obj kvs) = (kvs.map fun kv => leaves kv.2).flatten := by
  rw [leaves]
  congr 1
  exact List.attach_map_coe kvs (fun kv => leaves kv.2)

theorem JValue.inductionOn {α : Type} {motive : JValue α → Prop}
    (hscalar : ∀ a, motive (.scalar a))
    (harr : ∀ vs, (∀ v ∈ vs, motive v) → motive (.arr vs))
    (hobj : ∀ kvs, (∀ kv ∈ kvs, motive kv.2) → motive (.obj kvs)) :
    ∀ v, motive v
  | .scalar a => hscalar a
  | .arr vs => harr vs (fun v _hv => JValue.inductionOn hscalar harr hobj v)
  | .obj kvs => hobj kvs (fun kv _hkv => JValue.inductionOn hscalar harr hobj kv.2)
termination_by v => sizeOf v
decreasing_by
  · have h := List.sizeOf_lt_of_mem _hv
    simp only [JValue.arr.sizeOf_spec]
    omega
  · have h := List.sizeOf_lt_of_mem _hkv
    have h2 : sizeOf kv.2 < sizeOf kv := by
      obtain ⟨k, v2⟩ := kv
      simp_arith
    simp only [JValue.obj.sizeOf_spec]
    omega

/-- C9: `mapValuesDeep` is a structure-preserving leaf map: with the
identity callback it returns the value unchanged; it preserves the whole
skeleton (array lengths and order, object key sets); and it applies the
callback exactly at every scalar leaf, in order. -/
theorem C9_mapValuesDeep_structure {α β : Type} (v : JValue α) (f : α → β) :
    mapValuesDeep (fun a => a) v = v ∧
    jshape (mapValuesDeep f v) = jshape v ∧
    leaves (mapValuesDeep f v) = (leaves v).map f := by
  induction v using JValue.inductionOn with
  | hscalar a =>
    exact ⟨mapValuesDeep_scalar _ a,
      by rw [mapValuesDeep_scalar, jshape_scalar, jshape_scalar],
      by rw [mapValuesDeep_scalar, leaves_scalar, leaves_scalar, List.map_singleton]⟩
  | harr vs ih =>
    refine ⟨?_, ?_, ?_⟩
    · rw [mapValuesDeep_arr]
      have h : vs.map (fun v => mapValuesDeep (fun a => a) v) = vs.map (fun v => v) :=
        List.map_congr_left fun x hx => (ih x hx).1
      rw [h, List.map_id']
    · rw [mapValuesDeep_arr, jshape_arr, jshape_arr, List.map_map]
      have h : vs.map ((fun v => jshape v) ∘ fun v => mapValuesDeep f v)
          = vs.map (fun v => jshape v) :=
        List.map_congr_left fun x hx => (ih x hx).2.1
      rw [h]
    · rw [mapValuesDeep_arr, leaves_arr, leaves_arr, List.map_map,
        List.map_flatten, List.map_map]
      have h : vs.map ((fun v => leaves v) ∘ fun v => mapValuesDeep f v)
          = vs.map (List.map f ∘ fun v => leaves v) :=
        List.map_congr_left fun x hx => by
          simp only [Function.comp_apply]
          exact (ih x hx).2.2
      rw [h]
  | hobj kvs ih =>
    refine ⟨?_, ?_, ?_⟩
    · rw [mapValuesDeep_obj]
      have h : kvs.map (fun kv => (kv.1, mapValuesDeep (fun a => a) kv.2))
          = kvs.map (fun kv => kv) :=
        List.map_congr_left fun kv hkv => by
          rw [(ih kv hkv).1]
      rw [h, List.map_id']
    · rw [mapValuesDeep_obj, jshape_obj, jshape_obj, List.map_map]
      have h : kvs.map ((fun kv => (kv.1, jshape kv.2))
            ∘ fun kv => (kv.1, mapValuesDeep f kv.2))
          = kvs.map (fun kv => (kv.1, jshape kv.2)) :=
        List.map_congr_left fun kv hkv => by
          simp only [Function.comp_apply]
          rw [(ih kv hkv).2.1]
      rw [h]
    · rw [mapValuesDeep_obj, leaves_obj, leaves_obj, List.map_map,
        List.map_flatten, List.map_map]
      have h : kvs.map ((fun kv => leaves kv.2)
            ∘ fun kv => (kv.1, mapValuesDeep f kv.2))
          = kvs.map (List.map f ∘ fun kv => leaves kv.2) :=
        List.map_congr_left fun kv hkv => by
          simp only [Function.comp_apply]
          exact (ih kv hkv).2.2
      rw [h]

end Posthoc
